import Mathlib

/-!
# urlshort: path resolution of `MapHandler` and `YAMLHandler`

A shallow embedding of `handler.go` (package `urlshort`).

* Go strings are Lean `String`s. `html.EscapeString` rewrites five ASCII
  bytes, which never occur inside a multi-byte UTF-8 sequence, so rewriting
  characters is rewriting bytes.
* `map[string]string` is its lookup function `String → Option String`
  (the comma-ok form `val, ok := m[k]`).
* The standard library and caller-supplied collaborators are kept abstract:
  `net/http.Redirect` is a field of `Http W`, the fallback `http.Handler` is a
  function on the response-writer state `W`, and `yaml.Unmarshal` is an
  injected function from bytes to a decoded record list or an error.
* A handler invocation acts on an `Exchange W`: the response-writer state
  together with the log of collaborator calls made by the handler.
* A closure returned by a constructor is the record of the variables it
  captures; invoking it returns the closure again next to the new exchange.
-/

namespace urlshort

/-! ## Standard library: `html.EscapeString` -/

namespace html

/-- Replacement table of Go's `html.EscapeString`
(`strings.NewReplacer` over the five single-byte keys). -/
def escapeChar (c : Char) : List Char :=
  if c = '&' then ['&', 'a', 'm', 'p', ';']
  else if c = Char.ofNat 39 then ['&', '#', '3', '9', ';']
  else if c = '<' then ['&', 'l', 't', ';']
  else if c = '>' then ['&', 'g', 't', ';']
  else if c = Char.ofNat 34 then ['&', '#', '3', '4', ';']
  else [c]

/-- One left-to-right pass replacing every character by its table entry. -/
def escapeChars : List Char → List Char
  | [] => []
  | c :: cs => escapeChar c ++ escapeChars cs

/-- Go's `html.EscapeString` (`htmlEscaper.Replace(s)`): escapes exactly `<`, `>`, `&`, the single quote
and the double quote. -/
def EscapeString (s : String) : String :=
  ⟨escapeChars s.data⟩

end html

/-! ## Requests, collaborators and exchanges -/

/-- The part of `net/url.URL` a request carries. -/
structure URL where
  Path : String
  RawQuery : String
deriving DecidableEq, Repr

/-- The part of `net/http.Request` the handlers can see. -/
structure Request where
  Method : String
  URL : urlshort.URL
deriving DecidableEq, Repr

/-- Constant `http.StatusMovedPermanently`. -/
def StatusMovedPermanently : Nat := 301

/-- A call made by a handler on one of its collaborators. -/
inductive Call where
  | Redirect (r : Request) (url : String) (code : Nat)
  | ServeHTTP (r : Request)
deriving DecidableEq, Repr

/-- An `http.Handler` supplied by the caller: it acts on the response writer. -/
abbrev Handler (W : Type) := W → Request → W

/-- The `net/http` functions used by the package. -/
structure Http (W : Type) where
  Redirect : W → Request → String → Nat → W

/-- One request/response exchange: the response writer and the collaborator
calls made so far, oldest first. -/
structure Exchange (W : Type) where
  w : W
  calls : List Call

/-- Statement `http.Redirect(w, r, url, code)`. -/
def Exchange.Redirect {W : Type} (http : Http W) (x : Exchange W) (r : Request)
    (url : String) (code : Nat) : Exchange W :=
  ⟨http.Redirect x.w r url code, x.calls ++ [Call.Redirect r url code]⟩

/-- Statement `fallback.ServeHTTP(w, r)`. -/
def Exchange.ServeHTTP {W : Type} (fallback : Handler W) (x : Exchange W)
    (r : Request) : Exchange W :=
  ⟨fallback x.w r, x.calls ++ [Call.ServeHTTP r]⟩

/-! ## `MapHandler` -/

/-- Go `map[string]string`, as its lookup. -/
abbrev GoMap := String → Option String

/-- The closure `MapHandler` returns: its captured variables. -/
structure MapFunc (W : Type) where
  pathsToUrls : GoMap
  fallback : Handler W

/-- `func MapHandler(pathsToUrls map[string]string, fallback http.Handler) http.HandlerFunc`. -/
def MapHandler {W : Type} (pathsToUrls : GoMap) (fallback : Handler W) : MapFunc W :=
  ⟨pathsToUrls, fallback⟩

/-- Body of the closure returned by `MapHandler`. -/
def MapFunc.ServeHTTP {W : Type} (http : Http W) (f : MapFunc W) (x : Exchange W)
    (r : Request) : MapFunc W × Exchange W :=
  let path := html.EscapeString r.URL.Path
  match f.pathsToUrls path with
  | some val => (f, x.Redirect http r val StatusMovedPermanently)
  | none => (f, x.ServeHTTP f.fallback r)

/-! ## `YAMLHandler` -/

/-- `type pathMap struct`. -/
structure pathMap where
  Path : String
  URL : String
deriving DecidableEq, Repr

/-- The closure `YAMLHandler` returns: its captured variables. -/
structure YAMLFunc (W : Type) where
  pathMaps : List pathMap
  fallback : Handler W

/-- The `for _, p := range pathMaps` loop of the closure, followed by the
fallback call reached when the loop runs out. -/
def YAMLFunc.loop {W : Type} (http : Http W) (f : YAMLFunc W) (x : Exchange W)
    (r : Request) (path : String) : List pathMap → YAMLFunc W × Exchange W
  | [] => (f, x.ServeHTTP f.fallback r)
  | p :: ps =>
    if p.Path = path then (f, x.Redirect http r p.URL StatusMovedPermanently)
    else YAMLFunc.loop http f x r path ps

/-- Body of the closure returned by `YAMLHandler`. -/
def YAMLFunc.ServeHTTP {W : Type} (http : Http W) (f : YAMLFunc W) (x : Exchange W)
    (r : Request) : YAMLFunc W × Exchange W :=
  let path := html.EscapeString r.URL.Path
  f.loop http x r path f.pathMaps

/-- Go `[]byte`. -/
abbrev Bytes := List UInt8

/-- `func YAMLHandler(yml []byte, fallback http.Handler) (http.HandlerFunc, error)`.
`Unmarshal` stands for `yaml.Unmarshal(yml, &pathMaps)`: it yields the decoded
`pathMaps` or the error; the two results of the Go function are the two
components, `none` being `nil`. -/
def YAMLHandler {W E : Type} (Unmarshal : Bytes → Except E (List pathMap))
    (yml : Bytes) (fallback : Handler W) : Option (YAMLFunc W) × Option E :=
  match Unmarshal yml with
  | Except.error err => (none, some err)
  | Except.ok pathMaps => (some ⟨pathMaps, fallback⟩, none)

/-! ## Fixtures -/

/-- A response writer that records status and location of each response. -/
abbrev Recorder := List (Nat × String)

/-- `http.Redirect` on a `Recorder`. -/
def recHttp : Http Recorder := ⟨fun w _ url code => w ++ [(code, url)]⟩

/-- A fallback answering 404 for the requested path. -/
def notFound : Handler Recorder := fun w r => w ++ [(404, r.URL.Path)]

/-- A GET request for a path. -/
def get (path : String) : Request := ⟨"GET", ⟨path, ""⟩⟩

/-- The empty exchange. -/
def fresh : Exchange Recorder := ⟨[], []⟩

/-- The empty mapping. -/
def GoMap.empty : GoMap := fun _ => none

/-- Assignment `m[k] = v`. -/
def GoMap.set (m : GoMap) (k v : String) : GoMap :=
  fun q => if q = k then some v else m q

/-- A mapping with one entry. -/
def single (k v : String) : GoMap := GoMap.empty.set k v

/-- The mapping of the example scenario. -/
def exampleMap : GoMap :=
  (GoMap.empty.set "/urlshort-go" "https://github.com/gophercises/urlshort").set
    "/yaml" "https://yaml.org"

/-- The records of a document with the entries of `exampleMap`. -/
def exampleRecords : List pathMap :=
  [⟨"/urlshort-go", "https://github.com/gophercises/urlshort"⟩, ⟨"/yaml", "https://yaml.org"⟩]

/-- A stand-in decoder: a document starting with `-` decodes to `rs`, any
other document is rejected. -/
def stubUnmarshal (rs : List pathMap) : Bytes → Except String (List pathMap) :=
  fun yml => if yml.head? = some 45 then Except.ok rs else Except.error "yaml: unmarshal errors"

/-- The handler of a constructor result, run on one request from an empty
exchange: the calls it makes, or `none` when no handler was returned. -/
def callsOf (res : Option (YAMLFunc Recorder) × Option String) (r : Request) :
    Option (List Call) :=
  res.1.map (fun h => (h.ServeHTTP recHttp fresh r).2.calls)

/-! ## Vocabulary of the specification -/

namespace html

/-- The HTML-sensitive characters: `&`, the single quote, `<`, `>` and the
double quote. -/
def sensitive (c : Char) : Bool :=
  c == '&' || c == Char.ofNat 39 || c == '<' || c == '>' || c == Char.ofNat 34

/-- A string containing no HTML-sensitive character. -/
def clean (s : String) : Bool :=
  s.data.all (fun c => !sensitive c)

/-- The characters `<`, `>`, single quote and double quote. -/
def markup (c : Char) : Bool :=
  c == '<' || c == '>' || c == Char.ofNat 39 || c == Char.ofNat 34

/-- A string containing one of `<`, `>`, single quote or double quote. -/
def hasMarkup (s : String) : Bool :=
  s.data.any markup

end html

/-- Specification-side variant of `MapFunc.ServeHTTP`: the same resolver
looking up the raw request path instead of the escaped one. -/
def MapFunc.ServeRaw {W : Type} (http : Http W) (f : MapFunc W) (x : Exchange W)
    (r : Request) : MapFunc W × Exchange W :=
  match f.pathsToUrls r.URL.Path with
  | some val => (f, x.Redirect http r val StatusMovedPermanently)
  | none => (f, x.ServeHTTP f.fallback r)

/-- Specification-side variant of `YAMLFunc.ServeHTTP`: the same resolver
scanning for the raw request path instead of the escaped one. -/
def YAMLFunc.ServeRaw {W : Type} (http : Http W) (f : YAMLFunc W) (x : Exchange W)
    (r : Request) : YAMLFunc W × Exchange W :=
  f.loop http x r r.URL.Path f.pathMaps

/-- The mapping without the entry for `k` (Go `delete(m, k)`). -/
def GoMap.delete (m : GoMap) (k : String) : GoMap :=
  fun q => if q = k then none else m q

/-- The record sequence without the records whose path is `k`. -/
def dropPath (rs : List pathMap) (k : String) : List pathMap :=
  rs.filter (fun q => decide (q.Path ≠ k))

/-! ## Lemmas on `html.EscapeString` -/

namespace html

/-- The table of `html.EscapeString` on each of the five characters, and a
string without them. -/
theorem EscapeString_table :
    EscapeString "a<b>&c" = "a&lt;b&gt;&amp;c" ∧
    EscapeString ⟨[Char.ofNat 39, Char.ofNat 34]⟩ = "&#39;&#34;" ∧
    EscapeString "/some-path" = "/some-path" := by
  decide

theorem escapeChar_of_not_sensitive (c : Char) (h : sensitive c = false) :
    escapeChar c = [c] := by
  simp [sensitive] at h
  obtain ⟨⟨⟨⟨h1, h2⟩, h3⟩, h4⟩, h5⟩ := h
  simp [escapeChar, h1, h2, h3, h4, h5]

theorem amp_mem_escapeChar (c : Char) (h : sensitive c = true) :
    '&' ∈ escapeChar c := by
  unfold escapeChar
  split_ifs <;> simp_all [sensitive]

theorem markup_of_mem_escapeChar (c d : Char) (h : d ∈ escapeChar c) :
    markup d = false := by
  unfold escapeChar at h
  split_ifs at h with h1 h2 h3 h4 h5
  all_goals simp at h
  · rcases h with h | h | h | h | h <;> subst h <;> decide
  · rcases h with h | h | h | h | h <;> subst h <;> decide
  · rcases h with h | h | h | h <;> subst h <;> decide
  · rcases h with h | h | h | h <;> subst h <;> decide
  · rcases h with h | h | h | h | h <;> subst h <;> decide
  · subst h
    simp [markup, h2, h3, h4, h5]

theorem escapeChars_of_clean (l : List Char)
    (h : l.all (fun c => !sensitive c) = true) : escapeChars l = l := by
  induction l with
  | nil => rfl
  | cons c cs ih =>
    simp only [List.all_cons, Bool.and_eq_true, Bool.not_eq_true'] at h
    simp [escapeChars, escapeChar_of_not_sensitive c h.1, ih h.2]

theorem amp_mem_escapeChars (l : List Char)
    (h : l.all (fun c => !sensitive c) = false) : '&' ∈ escapeChars l := by
  induction l with
  | nil => simp at h
  | cons c cs ih =>
    simp only [escapeChars, List.mem_append]
    cases hc : sensitive c with
    | true => exact Or.inl (amp_mem_escapeChar c hc)
    | false =>
      refine Or.inr (ih ?_)
      simpa [hc] using h

theorem markup_of_mem_escapeChars (l : List Char) (d : Char)
    (h : d ∈ escapeChars l) : markup d = false := by
  induction l with
  | nil => simp [escapeChars] at h
  | cons c cs ih =>
    simp only [escapeChars, List.mem_append] at h
    rcases h with h | h
    · exact markup_of_mem_escapeChar c d h
    · exact ih h

/-- A clean string is a fixed point of the escaping. -/
theorem EscapeString_of_clean (s : String) (h : clean s = true) :
    EscapeString s = s := by
  unfold EscapeString
  rw [escapeChars_of_clean s.data h]

/-- The escaped form of a string that is not clean contains `&`. -/
theorem amp_mem_EscapeString (s : String) (h : clean s = false) :
    '&' ∈ (EscapeString s).data :=
  amp_mem_escapeChars s.data h

/-- For a clean key, the escaped path equals the key exactly when the raw
path does. -/
theorem EscapeString_eq_clean_iff (k p : String) (hk : clean k = true) :
    EscapeString p = k ↔ p = k := by
  cases hp : clean p with
  | true => rw [EscapeString_of_clean p hp]
  | false =>
    constructor
    · intro he
      have hmem := amp_mem_EscapeString p hp
      rw [he] at hmem
      have hall := List.all_eq_true.mp hk _ hmem
      simp [sensitive] at hall
    · intro he
      rw [he, hk] at hp
      cases hp

/-- No escaped string equals a key containing `<`, `>` or a quote. -/
theorem EscapeString_ne_of_hasMarkup (k p : String) (hk : hasMarkup k = true) :
    EscapeString p ≠ k := by
  intro he
  obtain ⟨d, hd, hm⟩ := List.any_eq_true.mp hk
  rw [← he] at hd
  rw [markup_of_mem_escapeChars p.data d hd] at hm
  cases hm

end html

/-! ## Lemmas on the record scan -/

theorem YAMLFunc.loop_cases {W : Type} (http : Http W) (f : YAMLFunc W)
    (x : Exchange W) (r : Request) (path : String) (l : List pathMap) :
    (∃ pre p post, l = pre ++ p :: post ∧ (∀ q ∈ pre, q.Path ≠ path) ∧ p.Path = path ∧
        f.loop http x r path l = (f, x.Redirect http r p.URL StatusMovedPermanently)) ∨
      ((∀ q ∈ l, q.Path ≠ path) ∧ f.loop http x r path l = (f, x.ServeHTTP f.fallback r)) := by
  induction l with
  | nil => exact Or.inr ⟨by simp, rfl⟩
  | cons a as ih =>
    by_cases ha : a.Path = path
    · exact Or.inl ⟨[], a, as, rfl, by simp, ha, by simp [YAMLFunc.loop, ha]⟩
    · rcases ih with ⟨pre, p, post, hl, hpre, hp, hres⟩ | ⟨hall, hres⟩
      · refine Or.inl ⟨a :: pre, p, post, by simp [hl], ?_, hp, ?_⟩
        · intro q hq
          rcases List.mem_cons.mp hq with h | h
          · rw [h]; exact ha
          · exact hpre q h
        · simp [YAMLFunc.loop, ha, hres]
      · refine Or.inr ⟨?_, ?_⟩
        · intro q hq
          rcases List.mem_cons.mp hq with h | h
          · rw [h]; exact ha
          · exact hall q h
        · simp [YAMLFunc.loop, ha, hres]

theorem YAMLFunc.loop_hit {W : Type} (http : Http W) (f : YAMLFunc W)
    (x : Exchange W) (r : Request) (path : String) (pre : List pathMap) (p : pathMap)
    (post : List pathMap) (hpre : ∀ q ∈ pre, q.Path ≠ path) (hp : p.Path = path) :
    f.loop http x r path (pre ++ p :: post) =
      (f, x.Redirect http r p.URL StatusMovedPermanently) := by
  induction pre with
  | nil => simp [YAMLFunc.loop, hp]
  | cons a as ih =>
    have ha : a.Path ≠ path := hpre a (by simp)
    have has : ∀ q ∈ as, q.Path ≠ path := fun q hq => hpre q (by simp [hq])
    simp [YAMLFunc.loop, ha, ih has]

theorem YAMLFunc.loop_miss {W : Type} (http : Http W) (f : YAMLFunc W)
    (x : Exchange W) (r : Request) (path : String) (l : List pathMap)
    (hall : ∀ q ∈ l, q.Path ≠ path) :
    f.loop http x r path l = (f, x.ServeHTTP f.fallback r) := by
  induction l with
  | nil => rfl
  | cons a as ih =>
    have ha : a.Path ≠ path := hall a (by simp)
    have has : ∀ q ∈ as, q.Path ≠ path := fun q hq => hall q (by simp [hq])
    simp [YAMLFunc.loop, ha, ih has]

/-- The exchange a scan produces depends on the closure only through its
fallback. -/
theorem YAMLFunc.loop_snd_congr {W : Type} (http : Http W) (f g : YAMLFunc W)
    (hfb : f.fallback = g.fallback) (x : Exchange W) (r : Request) (path : String)
    (l : List pathMap) :
    (f.loop http x r path l).2 = (g.loop http x r path l).2 := by
  induction l with
  | nil => simp [YAMLFunc.loop, hfb]
  | cons a as ih =>
    by_cases ha : a.Path = path
    · simp [YAMLFunc.loop, ha]
    · simp [YAMLFunc.loop, ha, ih]

/-- Two keys that agree on which records they match give the same scan. -/
theorem YAMLFunc.loop_key_congr {W : Type} (http : Http W) (f : YAMLFunc W)
    (x : Exchange W) (r : Request) (a b : String) (l : List pathMap)
    (h : ∀ q ∈ l, q.Path = a ↔ q.Path = b) :
    f.loop http x r a l = f.loop http x r b l := by
  induction l with
  | nil => rfl
  | cons c cs ih =>
    have hc : c.Path = a ↔ c.Path = b := h c (by simp)
    have hcs : ∀ q ∈ cs, q.Path = a ↔ q.Path = b := fun q hq => h q (by simp [hq])
    by_cases hca : c.Path = a
    · have hcb : c.Path = b := hc.mp hca
      simp only [YAMLFunc.loop, if_pos hca, if_pos hcb]
    · have hcb : ¬ c.Path = b := fun hb => hca (hc.mpr hb)
      simp only [YAMLFunc.loop, if_neg hca, if_neg hcb]
      exact ih hcs

/-- Records whose path differs from the key do not influence the scan. -/
theorem YAMLFunc.loop_dropPath {W : Type} (http : Http W) (f : YAMLFunc W)
    (x : Exchange W) (r : Request) (path k : String) (hk : path ≠ k)
    (l : List pathMap) :
    f.loop http x r path (dropPath l k) = f.loop http x r path l := by
  induction l with
  | nil => rfl
  | cons c cs ih =>
    by_cases hck : c.Path = k
    · have hcp : ¬ c.Path = path := fun h => hk (h.symm.trans hck)
      have hd : dropPath (c :: cs) k = dropPath cs k := by
        unfold dropPath
        exact List.filter_cons_of_neg (by simp [hck])
      rw [hd, ih]
      simp only [YAMLFunc.loop, if_neg hcp]
    · have hd : dropPath (c :: cs) k = c :: dropPath cs k := by
        unfold dropPath
        exact List.filter_cons_of_pos (by simp [hck])
      rw [hd]
      by_cases hcp : c.Path = path
      · simp only [YAMLFunc.loop, if_pos hcp]
      · simp only [YAMLFunc.loop, if_neg hcp]
        exact ih

/-! ## `MapHandler`: resolution -/

/-- C6. With `e = html.EscapeString(r.URL.Path)`: if `e` is a key of the
mapping with value `u`, the handler makes exactly one collaborator call, the
redirect of `r` to `u` with status 301, and the fallback is not invoked;
if `e` is not a key, the only call is the fallback with the original request
`r`, and the response is the one the fallback writes. -/
theorem MapHandler_resolution {W : Type} (http : Http W) (m : GoMap) (fb : Handler W)
    (x : Exchange W) (r : Request) :
    (∀ u, m (html.EscapeString r.URL.Path) = some u →
      ((MapHandler m fb).ServeHTTP http x r).2.calls = x.calls ++ [Call.Redirect r u 301] ∧
      ((MapHandler m fb).ServeHTTP http x r).2.w = http.Redirect x.w r u 301) ∧
    (m (html.EscapeString r.URL.Path) = none →
      ((MapHandler m fb).ServeHTTP http x r).2.calls = x.calls ++ [Call.ServeHTTP r] ∧
      ((MapHandler m fb).ServeHTTP http x r).2.w = fb x.w r) := by
  constructor
  · intro u hu
    simp [MapHandler, MapFunc.ServeHTTP, hu, Exchange.Redirect, StatusMovedPermanently]
  · intro hn
    simp [MapHandler, MapFunc.ServeHTTP, hn, Exchange.ServeHTTP]

/-- C6, evaluated: the escaped form of `/a&b` is the key `/a&amp;b`; a path
with no entry goes to the fallback unescaped. -/
theorem MapHandler_resolution_witness :
    ((MapHandler (single "/a&amp;b" "https://example.com") notFound).ServeHTTP recHttp fresh
        (get "/a&b")).2.calls = [Call.Redirect (get "/a&b") "https://example.com" 301] ∧
    ((MapHandler (single "/a&amp;b" "https://example.com") notFound).ServeHTTP recHttp fresh
        (get "/<x>")).2.calls = [Call.ServeHTTP (get "/<x>")] :=
  ⟨((MapHandler_resolution recHttp (single "/a&amp;b" "https://example.com") notFound fresh
      (get "/a&b")).1 "https://example.com" (by decide)).1,
   ((MapHandler_resolution recHttp (single "/a&amp;b" "https://example.com") notFound fresh
      (get "/<x>")).2 (by decide)).1⟩

/-- C1, at a failing input. The function comment promises that paths that
are keys of the map are mapped to their URL. With the mapping holding the
single key `/a&b`, the request for `/a&b` is looked up under its escaped form
`/a&amp;b`: the handler makes no redirect, its only call is the fallback, and
the response is the fallback's 404. -/
theorem MapHandler_key_not_redirected :
    single "/a&b" "https://example.com" "/a&b" = some "https://example.com" ∧
    ((MapHandler (single "/a&b" "https://example.com") notFound).ServeHTTP recHttp fresh
        (get "/a&b")).2.calls = [Call.ServeHTTP (get "/a&b")] ∧
    ((MapHandler (single "/a&b" "https://example.com") notFound).ServeHTTP recHttp fresh
        (get "/a&b")).2.w = [(404, "/a&b")] := by
  decide

/-- C2, at a failing input. The function comment promises the fallback for a
path that is not in the map. With the mapping holding the single key
`/a&amp;b`, the path `/a&b` is not a key, yet the request for `/a&b` is
redirected with status 301 and the fallback is not called, because the lookup
is made under the escaped form `/a&amp;b`. -/
theorem MapHandler_absent_path_redirected :
    single "/a&amp;b" "https://example.com" "/a&b" = none ∧
    ((MapHandler (single "/a&amp;b" "https://example.com") notFound).ServeHTTP recHttp fresh
        (get "/a&b")).2.calls = [Call.Redirect (get "/a&b") "https://example.com" 301] ∧
    ((MapHandler (single "/a&amp;b" "https://example.com") notFound).ServeHTTP recHttp fresh
        (get "/a&b")).2.w = [(301, "https://example.com")] := by
  decide

/-! ## `YAMLHandler`: construction and resolution -/

/-- C4. Construction is all-or-nothing in the injected decoder: the returned
error is non-nil exactly when the decoder fails; on failure the handler is
nil and the error is the decoder's error; on success the error is nil and the
handler closes over exactly the decoded records and the given fallback. -/
theorem YAMLHandler_all_or_nothing {W E : Type}
    (Unmarshal : Bytes → Except E (List pathMap)) (yml : Bytes) (fb : Handler W) :
    ((YAMLHandler Unmarshal yml fb).2 ≠ none ↔ ∃ err, Unmarshal yml = Except.error err) ∧
    (∀ err, Unmarshal yml = Except.error err →
      YAMLHandler Unmarshal yml fb = (none, some err)) ∧
    (∀ rs, Unmarshal yml = Except.ok rs →
      YAMLHandler Unmarshal yml fb = (some ⟨rs, fb⟩, none)) := by
  unfold YAMLHandler
  cases h : Unmarshal yml with
  | error err => simp
  | ok rs => simp

/-- C4, evaluated: a bare scalar is rejected with the decoder's error and no
handler; a sequence yields a handler over the decoded records and no error. -/
theorem YAMLHandler_all_or_nothing_witness :
    YAMLHandler (stubUnmarshal exampleRecords) [120] notFound =
      (none, some "yaml: unmarshal errors") ∧
    YAMLHandler (stubUnmarshal exampleRecords) [45] notFound =
      (some ⟨exampleRecords, notFound⟩, none) :=
  ⟨(YAMLHandler_all_or_nothing (stubUnmarshal exampleRecords) [120] notFound).2.1
      "yaml: unmarshal errors" rfl,
   (YAMLHandler_all_or_nothing (stubUnmarshal exampleRecords) [45] notFound).2.2
      exampleRecords rfl⟩

/-- C7. With `e = html.EscapeString(r.URL.Path)` and a document decoding to
`rs`, a handler is returned and: if the record `p` is the first of `rs` whose
`Path` equals `e`, the handler makes exactly one call, the redirect of `r` to
`p.URL` with status 301, and the fallback is not invoked; if no record has
`Path` equal to `e`, the only call is the fallback with the original request
`r`, and the response is the one the fallback writes. -/
theorem YAMLHandler_resolution {W E : Type} (http : Http W)
    (Unmarshal : Bytes → Except E (List pathMap)) (yml : Bytes) (rs : List pathMap)
    (fb : Handler W) (x : Exchange W) (r : Request) (hdec : Unmarshal yml = Except.ok rs) :
    ∃ h, (YAMLHandler Unmarshal yml fb).1 = some h ∧
      (∀ pre p post, rs = pre ++ p :: post →
        (∀ q ∈ pre, q.Path ≠ html.EscapeString r.URL.Path) →
        p.Path = html.EscapeString r.URL.Path →
        (h.ServeHTTP http x r).2.calls = x.calls ++ [Call.Redirect r p.URL 301] ∧
        (h.ServeHTTP http x r).2.w = http.Redirect x.w r p.URL 301) ∧
      ((∀ q ∈ rs, q.Path ≠ html.EscapeString r.URL.Path) →
        (h.ServeHTTP http x r).2.calls = x.calls ++ [Call.ServeHTTP r] ∧
        (h.ServeHTTP http x r).2.w = fb x.w r) := by
  refine ⟨⟨rs, fb⟩, by simp [YAMLHandler, hdec], ?_, ?_⟩
  · intro pre p post hrs hpre hp
    subst hrs
    simp [YAMLFunc.ServeHTTP, YAMLFunc.loop_hit http _ x r _ pre p post hpre hp,
      Exchange.Redirect, StatusMovedPermanently]
  · intro hall
    simp [YAMLFunc.ServeHTTP, YAMLFunc.loop_miss http _ x r _ rs hall, Exchange.ServeHTTP]

/-- C7, on the example scenario of the specification: the document with the
single record `/foo`, `https://foo.com` is decoded and a handler returned. -/
theorem YAMLHandler_resolution_witness :
    stubUnmarshal [⟨"/foo", "https://foo.com"⟩] [45] = Except.ok [⟨"/foo", "https://foo.com"⟩] ∧
    ∃ h, (YAMLHandler (stubUnmarshal [⟨"/foo", "https://foo.com"⟩]) [45] notFound).1 = some h ∧
      (∀ pre p post, [(⟨"/foo", "https://foo.com"⟩ : pathMap)] = pre ++ p :: post →
        (∀ q ∈ pre, q.Path ≠ html.EscapeString (get "/foo").URL.Path) →
        p.Path = html.EscapeString (get "/foo").URL.Path →
        (h.ServeHTTP recHttp fresh (get "/foo")).2.calls =
          fresh.calls ++ [Call.Redirect (get "/foo") p.URL 301] ∧
        (h.ServeHTTP recHttp fresh (get "/foo")).2.w =
          recHttp.Redirect fresh.w (get "/foo") p.URL 301) ∧
      ((∀ q ∈ [(⟨"/foo", "https://foo.com"⟩ : pathMap)],
          q.Path ≠ html.EscapeString (get "/foo").URL.Path) →
        (h.ServeHTTP recHttp fresh (get "/foo")).2.calls =
          fresh.calls ++ [Call.ServeHTTP (get "/foo")] ∧
        (h.ServeHTTP recHttp fresh (get "/foo")).2.w = notFound fresh.w (get "/foo")) :=
  ⟨rfl,
    YAMLHandler_resolution recHttp (stubUnmarshal [⟨"/foo", "https://foo.com"⟩]) [45]
      [⟨"/foo", "https://foo.com"⟩] notFound fresh (get "/foo") rfl⟩

/-- C3, at a failing input. The function comment promises that paths of the
document are mapped to their URL. The document decodes to two records with
the same path `/a&b` and different URLs, yet the request for `/a&b` is
compared under its escaped form `/a&amp;b`, matches neither record and is
handed to the fallback: there is no redirect to the first URL. -/
theorem YAMLHandler_record_not_redirected :
    stubUnmarshal [⟨"/a&b", "https://one.example"⟩, ⟨"/a&b", "https://two.example"⟩] [45] =
      Except.ok [⟨"/a&b", "https://one.example"⟩, ⟨"/a&b", "https://two.example"⟩] ∧
    callsOf (YAMLHandler
        (stubUnmarshal [⟨"/a&b", "https://one.example"⟩, ⟨"/a&b", "https://two.example"⟩])
        [45] notFound) (get "/a&b") = some [Call.ServeHTTP (get "/a&b")] :=
  ⟨rfl, by decide⟩

/-! ## The two resolvers against each other -/

/-- C5. For records with pairwise distinct paths, a mapping holding exactly
those (path, url) pairs and one fallback, the handler of `MapHandler` and the
handler `YAMLHandler` returns for a document decoding to the records act the
same on every request: both make the single call of a 301 redirect to the
same target, or both make the single call of the fallback with the request;
the resulting exchanges are equal. -/
theorem MapHandler_YAMLHandler_agree {W E : Type} (http : Http W)
    (Unmarshal : Bytes → Except E (List pathMap)) (yml : Bytes) (rs : List pathMap)
    (m : GoMap) (fb : Handler W) (hdec : Unmarshal yml = Except.ok rs)
    (hdistinct : (rs.map pathMap.Path).Nodup)
    (hm : ∀ k v, m k = some v ↔ (⟨k, v⟩ : pathMap) ∈ rs) :
    ∃ h, (YAMLHandler Unmarshal yml fb).1 = some h ∧
      ∀ (x : Exchange W) (r : Request),
        ((MapHandler m fb).ServeHTTP http x r).2 = (h.ServeHTTP http x r).2 ∧
        ((∃ u, ((MapHandler m fb).ServeHTTP http x r).2.calls =
              x.calls ++ [Call.Redirect r u 301] ∧
            (h.ServeHTTP http x r).2.calls = x.calls ++ [Call.Redirect r u 301]) ∨
          (((MapHandler m fb).ServeHTTP http x r).2.calls = x.calls ++ [Call.ServeHTTP r] ∧
            (h.ServeHTTP http x r).2.calls = x.calls ++ [Call.ServeHTTP r])) := by
  -- `hm` alone fixes one URL per path; distinctness is not used further.
  have _ := hdistinct
  refine ⟨⟨rs, fb⟩, by simp [YAMLHandler, hdec], ?_⟩
  intro x r
  rcases YAMLFunc.loop_cases http ⟨rs, fb⟩ x r (html.EscapeString r.URL.Path) rs with
    ⟨pre, p, post, hrs, _, hp, hres⟩ | ⟨hall, hres⟩
  · have hmem : (⟨html.EscapeString r.URL.Path, p.URL⟩ : pathMap) ∈ rs := by
      rw [← hp, hrs]
      simp
    have hkey : m (html.EscapeString r.URL.Path) = some p.URL := (hm _ _).mpr hmem
    refine ⟨?_, Or.inl ⟨p.URL, ?_, ?_⟩⟩
    · simp [MapHandler, MapFunc.ServeHTTP, YAMLFunc.ServeHTTP, hkey, hres]
    · simp [MapHandler, MapFunc.ServeHTTP, hkey, Exchange.Redirect, StatusMovedPermanently]
    · simp [YAMLFunc.ServeHTTP, hres, Exchange.Redirect, StatusMovedPermanently]
  · have hkey : m (html.EscapeString r.URL.Path) = none := by
      cases hv : m (html.EscapeString r.URL.Path) with
      | none => rfl
      | some v => exact absurd rfl (hall _ ((hm _ _).mp hv))
    refine ⟨?_, Or.inr ⟨?_, ?_⟩⟩
    · simp [MapHandler, MapFunc.ServeHTTP, YAMLFunc.ServeHTTP, hkey, hres]
    · simp [MapHandler, MapFunc.ServeHTTP, hkey, Exchange.ServeHTTP]
    · simp [YAMLFunc.ServeHTTP, hres, Exchange.ServeHTTP]

/-- The example mapping holds exactly the example records. -/
theorem exampleMap_iff_mem (k v : String) :
    exampleMap k = some v ↔ (⟨k, v⟩ : pathMap) ∈ exampleRecords := by
  unfold exampleMap exampleRecords GoMap.set GoMap.empty
  by_cases h1 : k = "/yaml"
  · subst h1
    simp [eq_comm]
  · by_cases h2 : k = "/urlshort-go"
    · subst h2
      simp [eq_comm]
    · simp [h1, h2]

/-- C5, on the example scenario: the example mapping and a document decoding
to the example records. -/
theorem MapHandler_YAMLHandler_agree_witness :
    stubUnmarshal exampleRecords [45] = Except.ok exampleRecords ∧
    (exampleRecords.map pathMap.Path).Nodup ∧
    ∃ h, (YAMLHandler (stubUnmarshal exampleRecords) [45] notFound).1 = some h ∧
      ∀ (x : Exchange Recorder) (r : Request),
        ((MapHandler exampleMap notFound).ServeHTTP recHttp x r).2 =
          (h.ServeHTTP recHttp x r).2 ∧
        ((∃ u, ((MapHandler exampleMap notFound).ServeHTTP recHttp x r).2.calls =
              x.calls ++ [Call.Redirect r u 301] ∧
            (h.ServeHTTP recHttp x r).2.calls = x.calls ++ [Call.Redirect r u 301]) ∨
          (((MapHandler exampleMap notFound).ServeHTTP recHttp x r).2.calls =
              x.calls ++ [Call.ServeHTTP r] ∧
            (h.ServeHTTP recHttp x r).2.calls = x.calls ++ [Call.ServeHTTP r])) :=
  ⟨rfl, by decide,
    MapHandler_YAMLHandler_agree recHttp (stubUnmarshal exampleRecords) [45] exampleRecords
      exampleMap notFound rfl (by decide) exampleMap_iff_mem⟩

/-! ## Statelessness -/

/-- C8. For a handler built by `MapHandler` and one built by `YAMLHandler`,
and two requests with the same path served one after the other: the first
invocation returns the closure unchanged (same mapping or record sequence,
same fallback), and the two invocations take the same decision, a 301
redirect to the same target both times or the fallback both times. -/
theorem resolution_stateless {W E : Type} (http : Http W) (m : GoMap)
    (Unmarshal : Bytes → Except E (List pathMap)) (yml : Bytes) (h : YAMLFunc W)
    (fb : Handler W) (x : Exchange W) (r r' : Request)
    (hbuilt : (YAMLHandler Unmarshal yml fb).1 = some h)
    (hpath : r'.URL.Path = r.URL.Path) :
    (((MapHandler m fb).ServeHTTP http x r).1 = MapHandler m fb ∧
      ((∃ u, ((MapHandler m fb).ServeHTTP http x r).2.calls =
            x.calls ++ [Call.Redirect r u 301] ∧
          ((((MapHandler m fb).ServeHTTP http x r).1).ServeHTTP http
              ((MapHandler m fb).ServeHTTP http x r).2 r').2.calls =
            x.calls ++ [Call.Redirect r u 301, Call.Redirect r' u 301]) ∨
        (((MapHandler m fb).ServeHTTP http x r).2.calls = x.calls ++ [Call.ServeHTTP r] ∧
          ((((MapHandler m fb).ServeHTTP http x r).1).ServeHTTP http
              ((MapHandler m fb).ServeHTTP http x r).2 r').2.calls =
            x.calls ++ [Call.ServeHTTP r, Call.ServeHTTP r']))) ∧
    ((h.ServeHTTP http x r).1 = h ∧
      ((∃ u, (h.ServeHTTP http x r).2.calls = x.calls ++ [Call.Redirect r u 301] ∧
          (((h.ServeHTTP http x r).1).ServeHTTP http (h.ServeHTTP http x r).2 r').2.calls =
            x.calls ++ [Call.Redirect r u 301, Call.Redirect r' u 301]) ∨
        ((h.ServeHTTP http x r).2.calls = x.calls ++ [Call.ServeHTTP r] ∧
          (((h.ServeHTTP http x r).1).ServeHTTP http (h.ServeHTTP http x r).2 r').2.calls =
            x.calls ++ [Call.ServeHTTP r, Call.ServeHTTP r']))) := by
  have _ := hbuilt
  constructor
  · cases hv : m (html.EscapeString r.URL.Path) with
    | none =>
      refine ⟨by simp [MapHandler, MapFunc.ServeHTTP, hv], Or.inr ?_⟩
      simp [MapHandler, MapFunc.ServeHTTP, hv, hpath, Exchange.ServeHTTP]
    | some u =>
      refine ⟨by simp [MapHandler, MapFunc.ServeHTTP, hv], Or.inl ⟨u, ?_⟩⟩
      simp [MapHandler, MapFunc.ServeHTTP, hv, hpath, Exchange.Redirect,
        StatusMovedPermanently]
  · rcases YAMLFunc.loop_cases http h x r (html.EscapeString r.URL.Path) h.pathMaps with
      ⟨pre, p, post, hrs, hpre, hp, hres⟩ | ⟨hall, hres⟩
    · have hfst : h.ServeHTTP http x r = (h, x.Redirect http r p.URL StatusMovedPermanently) := by
        simp [YAMLFunc.ServeHTTP, hres]
      have hsnd : h.ServeHTTP http (x.Redirect http r p.URL StatusMovedPermanently) r' =
          (h, (x.Redirect http r p.URL StatusMovedPermanently).Redirect http r' p.URL
            StatusMovedPermanently) := by
        unfold YAMLFunc.ServeHTTP
        rw [hpath, hrs]
        exact YAMLFunc.loop_hit http h _ r' _ pre p post hpre hp
      rw [hfst]
      refine ⟨rfl, Or.inl ⟨p.URL, ?_, ?_⟩⟩
      · simp [Exchange.Redirect, StatusMovedPermanently]
      · simp only [hsnd]
        simp [Exchange.Redirect, StatusMovedPermanently]
    · have hfst : h.ServeHTTP http x r = (h, x.ServeHTTP h.fallback r) := by
        simp [YAMLFunc.ServeHTTP, hres]
      have hsnd : h.ServeHTTP http (x.ServeHTTP h.fallback r) r' =
          (h, (x.ServeHTTP h.fallback r).ServeHTTP h.fallback r') := by
        unfold YAMLFunc.ServeHTTP
        rw [hpath]
        exact YAMLFunc.loop_miss http h _ r' _ h.pathMaps hall
      rw [hfst]
      refine ⟨rfl, Or.inr ⟨?_, ?_⟩⟩
      · simp [Exchange.ServeHTTP]
      · simp only [hsnd]
        simp [Exchange.ServeHTTP]

/-- C8, evaluated: `/yaml` served twice by both handlers of the example
scenario. -/
theorem resolution_stateless_witness :
    (YAMLHandler (stubUnmarshal exampleRecords) [45] notFound).1 =
      some ⟨exampleRecords, notFound⟩ ∧
    ((∃ u, ((MapHandler exampleMap notFound).ServeHTTP recHttp fresh (get "/yaml")).2.calls =
          fresh.calls ++ [Call.Redirect (get "/yaml") u 301] ∧
        ((((MapHandler exampleMap notFound).ServeHTTP recHttp fresh (get "/yaml")).1).ServeHTTP
            recHttp ((MapHandler exampleMap notFound).ServeHTTP recHttp fresh (get "/yaml")).2
            (get "/yaml")).2.calls =
          fresh.calls ++ [Call.Redirect (get "/yaml") u 301, Call.Redirect (get "/yaml") u 301]) ∨
      (((MapHandler exampleMap notFound).ServeHTTP recHttp fresh (get "/yaml")).2.calls =
          fresh.calls ++ [Call.ServeHTTP (get "/yaml")] ∧
        ((((MapHandler exampleMap notFound).ServeHTTP recHttp fresh (get "/yaml")).1).ServeHTTP
            recHttp ((MapHandler exampleMap notFound).ServeHTTP recHttp fresh (get "/yaml")).2
            (get "/yaml")).2.calls =
          fresh.calls ++ [Call.ServeHTTP (get "/yaml"), Call.ServeHTTP (get "/yaml")])) ∧
    ((⟨exampleRecords, notFound⟩ : YAMLFunc Recorder).ServeHTTP recHttp fresh (get "/yaml")).1 =
      ⟨exampleRecords, notFound⟩ :=
  ⟨rfl,
    (resolution_stateless recHttp exampleMap (stubUnmarshal exampleRecords) [45]
      ⟨exampleRecords, notFound⟩ notFound fresh (get "/yaml") (get "/yaml") rfl rfl).1.2,
    (resolution_stateless recHttp exampleMap (stubUnmarshal exampleRecords) [45]
      ⟨exampleRecords, notFound⟩ notFound fresh (get "/yaml") (get "/yaml") rfl rfl).2.1⟩

/-! ## Escaping and matching -/

/-- C9. When no key of the mapping and no path of the record sequence
contains an HTML-sensitive character, then for every request, whatever its
path, each resolver acts exactly as the same resolver looking up the raw path
instead of the escaped one: same hit or miss, same target on a hit. -/
theorem escaping_preserves_matching {W : Type} (http : Http W) (m : GoMap)
    (rs : List pathMap) (fb : Handler W) (x : Exchange W) (r : Request)
    (hm : ∀ k u, m k = some u → html.clean k = true)
    (hrs : ∀ q ∈ rs, html.clean q.Path = true) :
    (MapHandler m fb).ServeHTTP http x r = (MapHandler m fb).ServeRaw http x r ∧
    (⟨rs, fb⟩ : YAMLFunc W).ServeHTTP http x r = (⟨rs, fb⟩ : YAMLFunc W).ServeRaw http x r := by
  constructor
  · have hkey : m (html.EscapeString r.URL.Path) = m r.URL.Path := by
      cases hc : html.clean r.URL.Path with
      | true => rw [html.EscapeString_of_clean _ hc]
      | false =>
        have h1 : m (html.EscapeString r.URL.Path) = none := by
          cases hv : m (html.EscapeString r.URL.Path) with
          | none => rfl
          | some u =>
            have hk := hm _ u hv
            have := (html.EscapeString_eq_clean_iff _ r.URL.Path hk).mp rfl
            rw [← this, hc] at hk
            cases hk
        have h2 : m r.URL.Path = none := by
          cases hv : m r.URL.Path with
          | none => rfl
          | some u =>
            rw [hm _ u hv] at hc
            cases hc
        rw [h1, h2]
    simp only [MapHandler, MapFunc.ServeHTTP, MapFunc.ServeRaw, hkey]
  · unfold YAMLFunc.ServeHTTP YAMLFunc.ServeRaw
    apply YAMLFunc.loop_key_congr
    intro q hq
    constructor
    · intro h
      exact ((html.EscapeString_eq_clean_iff q.Path r.URL.Path (hrs q hq)).mp h.symm).symm
    · intro h
      exact ((html.EscapeString_eq_clean_iff q.Path r.URL.Path (hrs q hq)).mpr h.symm).symm

/-- Every key of the example mapping is clean. -/
theorem exampleMap_clean (k u : String) (h : exampleMap k = some u) :
    html.clean k = true := by
  unfold exampleMap GoMap.set GoMap.empty at h
  by_cases h1 : k = "/yaml"
  · subst h1
    decide
  · by_cases h2 : k = "/urlshort-go"
    · subst h2
      decide
    · simp [h1, h2] at h

/-- C9, on the example scenario with a request path holding `<`, `&` and
`>`. -/
theorem escaping_preserves_matching_witness :
    (∀ k u, exampleMap k = some u → html.clean k = true) ∧
    (∀ q ∈ exampleRecords, html.clean q.Path = true) ∧
    (MapHandler exampleMap notFound).ServeHTTP recHttp fresh (get "/<a&b>") =
      (MapHandler exampleMap notFound).ServeRaw recHttp fresh (get "/<a&b>") ∧
    (⟨exampleRecords, notFound⟩ : YAMLFunc Recorder).ServeHTTP recHttp fresh (get "/<a&b>") =
      (⟨exampleRecords, notFound⟩ : YAMLFunc Recorder).ServeRaw recHttp fresh (get "/<a&b>") :=
  ⟨exampleMap_clean, by decide,
    escaping_preserves_matching recHttp exampleMap exampleRecords notFound fresh
      (get "/<a&b>") exampleMap_clean (by decide)⟩

/-- C10. An entry whose configured path `k` contains `<`, `>`, a single quote
or a double quote is matched by no request: no escaped path equals `k`, and
every request is resolved exactly as if the entry were absent, by the mapping
without the key `k` and by the record sequence without the records of path
`k`. In particular this holds for the request whose path is `k` itself. -/
theorem markup_entry_unreachable {W : Type} (http : Http W) (k : String)
    (hk : html.hasMarkup k = true) :
    (∀ p, html.EscapeString p ≠ k) ∧
    (∀ (m : GoMap) (fb : Handler W) (x : Exchange W) (r : Request),
      ((MapHandler (m.delete k) fb).ServeHTTP http x r).2 =
        ((MapHandler m fb).ServeHTTP http x r).2) ∧
    (∀ (rs : List pathMap) (fb : Handler W) (x : Exchange W) (r : Request),
      ((⟨dropPath rs k, fb⟩ : YAMLFunc W).ServeHTTP http x r).2 =
        ((⟨rs, fb⟩ : YAMLFunc W).ServeHTTP http x r).2) := by
  have hne : ∀ p, html.EscapeString p ≠ k := fun p => html.EscapeString_ne_of_hasMarkup k p hk
  refine ⟨hne, ?_, ?_⟩
  · intro m fb x r
    have hd : m.delete k (html.EscapeString r.URL.Path) = m (html.EscapeString r.URL.Path) := by
      simp [GoMap.delete, hne r.URL.Path]
    simp only [MapHandler, MapFunc.ServeHTTP, hd]
    cases m (html.EscapeString r.URL.Path) <;> rfl
  · intro rs fb x r
    unfold YAMLFunc.ServeHTTP
    simp only
    rw [YAMLFunc.loop_snd_congr http ⟨dropPath rs k, fb⟩ ⟨rs, fb⟩ rfl x r _ (dropPath rs k),
      YAMLFunc.loop_dropPath http ⟨rs, fb⟩ x r _ k (hne r.URL.Path) rs]

/-- C10, evaluated: the entry `/a<b` is configured, and the request for
`/a<b` itself goes to the fallback. -/
theorem markup_entry_unreachable_witness :
    html.hasMarkup "/a<b" = true ∧
    html.EscapeString "/a<b" ≠ "/a<b" ∧
    ((MapHandler (single "/a<b" "https://example.com") notFound).ServeHTTP recHttp fresh
        (get "/a<b")).2 =
      ((MapHandler ((single "/a<b" "https://example.com").delete "/a<b") notFound).ServeHTTP
        recHttp fresh (get "/a<b")).2 ∧
    ((⟨[⟨"/a<b", "https://example.com"⟩], notFound⟩ : YAMLFunc Recorder).ServeHTTP recHttp
        fresh (get "/a<b")).2 =
      ((⟨dropPath [⟨"/a<b", "https://example.com"⟩] "/a<b", notFound⟩ :
        YAMLFunc Recorder).ServeHTTP recHttp fresh (get "/a<b")).2 ∧
    ((MapHandler (single "/a<b" "https://example.com") notFound).ServeHTTP recHttp fresh
        (get "/a<b")).2.calls = [Call.ServeHTTP (get "/a<b")] :=
  ⟨by decide,
    (markup_entry_unreachable recHttp "/a<b" (by decide)).1 "/a<b",
    ((markup_entry_unreachable recHttp "/a<b" (by decide)).2.1
      (single "/a<b" "https://example.com") notFound fresh (get "/a<b")).symm,
    ((markup_entry_unreachable recHttp "/a<b" (by decide)).2.2
      [⟨"/a<b", "https://example.com"⟩] notFound fresh (get "/a<b")).symm,
    by decide⟩

end urlshort
